import Mathlib

/-!
# The URL shortener of `src/main.cpp`

A shallow embedding of the service: the two globals (`shortened_to_original`,
` custom_prefix`), the code generator (` increment_custom_prefix`), `shorten_url`,
`handle_request`, and the path an exception takes through `Session::do_read` up to
`main`.  The JSON library the handler calls (`nlohmann::json::parse`, `dump`) is not part
of the repository; it is modelled from its documented behaviour, with the text of
floating-point numbers left as a parameter.

Conventions: a `std::string` is the list of its characters; request bodies are taken as
decoded text.  Requests are handled one at a time, in the order their reads complete
(the service runs a single-threaded event loop).
-/

namespace UrlShortener

/-! ## Strings and `std::map` -/

/-- A `std::string`, as the list of its characters. -/
abbrev Str := List Char

/-- The key order of a `std::map<std::string, _>` (`std::less`): lexicographic, character
by character. -/
def strLt : Str → Str → Bool
  | [], [] => false
  | [], _ :: _ => true
  | _ :: _, [] => false
  | a :: as, b :: bs =>
    if a.toNat < b.toNat then true
    else if b.toNat < a.toNat then false
    else strLt as bs

/-- A `std::map<std::string, α>`: its entries, in increasing key order. -/
abbrev StdMap (α : Type) := List (Str × α)

/-- The lookup `m.find(k)`: the mapped value, or `none` for `m.end()`. -/
def map_find {α : Type} : StdMap α → Str → Option α
  | [], _ => none
  | (k1, v) :: m, k => if k1 = k then some v else map_find m k

/-- The assignment `m[k] = v`: the entry of `k` is created at its place in the key order
when `k` is absent, and its value is replaced when `k` is present. -/
def map_assign {α : Type} (k : Str) (v : α) : StdMap α → StdMap α
  | [] => [(k, v)]
  | (k1, v1) :: m =>
    if k1 = k then (k, v) :: m
    else if strLt k k1 then (k, v) :: (k1, v1) :: m
    else (k1, v1) :: map_assign k v m

/-- The keys of a map. -/
def map_keys {α : Type} (m : StdMap α) : List Str := m.map Prod.fst

/-! ## Service state and code generator -/

/-- The two globals of the service. -/
structure State where
  /-- The global `std::map<std::string, std::string> shortened_to_original`. -/
  shortened_to_original : StdMap Str
  /-- The global `std::string custom_prefix`. -/
  custom_prefix : Str
  deriving DecidableEq, Repr

/-- The globals as initialised at program start: an empty map and `"AAAA"`. -/
def State.fresh : State := ⟨[], "AAAA".toList⟩

/-- The loop of ` increment_custom_prefix`.  The first argument is `i + 1` for the loop
index `i` (so `0` is the exit condition `i == -1`); the index is a natural number here,
which is the C++ `int` for every string shorter than `2^31` characters. -/
def increment_loop : Nat → Str → Str
  | 0, s => s
  | i + 1, s =>
    match s[i]? with
    | some c =>
      if c = 'Z' then increment_loop i (s.set i 'A')
      else s.set i (Char.ofNat (c.toNat + 1))
    | none => s

/-- The function ` increment_custom_prefix`, as a function of the value of ` custom_prefix`:
the loop starts at index `size() - 1`. -/
def increment_custom_prefix ( custom_prefix : Str) : Str :=
  increment_loop custom_prefix.length custom_prefix

/-- The host prefix of every short URL. -/
def host_prefix : Str := "localhost:8080/".toList

/-- The function `shorten_url`: the returned `response_url` and the globals afterwards. -/
def shorten_url (st : State) (request_url : Str) : Str × State :=
  let response_url := host_prefix ++ st.custom_prefix
  let custom_prefix := increment_custom_prefix st.custom_prefix
  (response_url, ⟨map_assign response_url request_url st.shortened_to_original, custom_prefix⟩)

/-! ## The JSON library (`nlohmann::json`)

The library is not part of the repository.  The definitions of this section are modelled
from its documented behaviour: `parse` accepts exactly the JSON texts of RFC 8259 (one
value, optional white space around it), `dump()` prints the compact form. -/

/-- The exceptions that can be thrown while a request is handled. -/
inductive Exn where
  /-- The exception `nlohmann::json::parse_error`: the input is not a JSON text. -/
  | parse_error
  /-- The exception `nlohmann::json::out_of_range` (406): a number of the input is too
  large for a double. -/
  | number_overflow
  /-- The exception `std::out_of_range` of `std::string::substr` (`pos > size()`). -/
  | substr_out_of_range
  deriving DecidableEq, Repr

/-- A JSON value.  Integers cover `number_integer` and `number_unsigned`; a
`number_float` is represented by the text `dump()` prints for it, which is never empty
(its first character and the rest); the members of an object are a `std::map`. -/
inductive Json where
  | null
  | bool (b : Bool)
  | numInt (i : Int)
  | numFloat (first : Char) (rest : Str)
  | str (s : Str)
  | arr (elems : List Json)
  | obj (members : List (Str × Json))

/-- What the library makes of a number it reads as a double (a number with a fraction or
an exponent, or an integer outside the 64-bit ranges).  Floating-point conversion is not
modelled: applied to the number as written, a `FloatText` gives `none` when the value
overflows a double (the parser then throws `out_of_range`), and otherwise the text
`dump()` prints for the double.  Every statement below holds for every such behaviour. -/
abbrev FloatText := Str → Option (Char × Str)

/-- A sample `FloatText` for evaluating the model at concrete requests: the number is
printed back as it was written (as the library does for, say, `1.5`). -/
def FloatText.echo : FloatText
  | [] => none
  | c :: cs => some (c, cs)

/-- Two lower-case hexadecimal digits. -/
def hex2 (n : Nat) : Str := [Nat.digitChar (n / 16), Nat.digitChar (n % 16)]

/-- The text `dump()` prints for one character of a string (`ensure_ascii` is off): the
two-character escapes, `\u00xx` for the other control characters, the character itself
otherwise. -/
def escape_char (c : Char) : Str :=
  if c = '\x08' then ['\\', 'b']
  else if c = '\t' then ['\\', 't']
  else if c = '\n' then ['\\', 'n']
  else if c = '\x0c' then ['\\', 'f']
  else if c = '\r' then ['\\', 'r']
  else if c = '"' then ['\\', '"']
  else if c = '\\' then ['\\', '\\']
  else if c.toNat ≤ 0x1F then ['\\', 'u', '0', '0'] ++ hex2 c.toNat
  else [c]

/-- The escaped text of a string, without the surrounding quotes. -/
def escape_string : Str → Str
  | [] => []
  | c :: cs => escape_char c ++ escape_string cs

/-- A string as `dump()` prints it: escaped, between double quotes. -/
def quoted (s : Str) : Str := '"' :: escape_string s ++ ['"']

/-- The decimal text of an integer. -/
def dump_int (i : Int) : Str :=
  if i < 0 then '-' :: Nat.toDigits 10 i.natAbs else Nat.toDigits 10 i.natAbs

mutual
/-- The member function `dump()` with its default arguments: the compact text of a value. -/
def dump : Json → Str
  | .null => "null".toList
  | .bool b => if b then "true".toList else "false".toList
  | .numInt i => dump_int i
  | .numFloat first rest => first :: rest
  | .str s => quoted s
  | .arr [] => "[]".toList
  | .arr (x :: xs) => '[' :: dump x ++ dump_elems xs ++ [']']
  | .obj [] => "\x7b\x7d".toList
  | .obj ((k, v) :: ms) => '{' :: quoted k ++ ':' :: dump v ++ dump_members ms ++ ['}']
/-- The second and later elements of an array, each after a comma. -/
def dump_elems : List Json → Str
  | [] => []
  | x :: xs => ',' :: dump x ++ dump_elems xs
/-- The second and later members of an object, each after a comma. -/
def dump_members : List (Str × Json) → Str
  | [] => []
  | (k, v) :: ms => ',' :: quoted k ++ ':' :: dump v ++ dump_members ms
end

/-- White space between JSON tokens. -/
def is_ws (c : Char) : Bool := c = ' ' || c = '\t' || c = '\n' || c = '\r'

/-- Drop leading white space. -/
def skip_ws : Str → Str
  | [] => []
  | c :: cs => if is_ws c then skip_ws cs else c :: cs

/-- The value of a hexadecimal digit, in either case. -/
def hex_val (c : Char) : Option Nat :=
  if 48 ≤ c.toNat ∧ c.toNat ≤ 57 then some (c.toNat - 48)
  else if 97 ≤ c.toNat ∧ c.toNat ≤ 102 then some (c.toNat - 87)
  else if 65 ≤ c.toNat ∧ c.toNat ≤ 70 then some (c.toNat - 55)
  else none

/-- The code unit written by four hexadecimal digits. -/
def hex4 (a b c d : Char) : Option Nat :=
  match hex_val a, hex_val b, hex_val c, hex_val d with
  | some x, some y, some z, some w => some (((x * 16 + y) * 16 + z) * 16 + w)
  | _, _, _, _ => none

/-- The character a two-character escape stands for. -/
def unescape (e : Char) : Option Char :=
  if e = '"' then some '"'
  else if e = '\\' then some '\\'
  else if e = '/' then some '/'
  else if e = 'b' then some '\x08'
  else if e = 'f' then some '\x0c'
  else if e = 'n' then some '\n'
  else if e = 'r' then some '\r'
  else if e = 't' then some '\t'
  else none

/-- Prepend a character to a scanned string. -/
def push_char (c : Char) : Except Exn (Str × Str) → Except Exn (Str × Str)
  | .ok (s, rest) => .ok (c :: s, rest)
  | .error e => .error e

/-- Read an escape after its backslash: the character it denotes and the number of input
characters it takes (1 for a two-character escape, 5 for `\uXXXX`, 11 for a surrogate
pair).  A `\u` escape of a high surrogate must be followed by one of a low surrogate, and
a lone low surrogate is an error. -/
def scan_escape (cs : Str) : Option (Char × Nat) :=
  match cs with
  | [] => none
  | e :: cs1 =>
    if e = 'u' then
      match cs1 with
      | h1 :: h2 :: h3 :: h4 :: cs2 =>
        match hex4 h1 h2 h3 h4 with
        | none => none
        | some cp1 =>
          if 0xD800 ≤ cp1 ∧ cp1 ≤ 0xDBFF then
            match cs2 with
            | b :: u :: l1 :: l2 :: l3 :: l4 :: _ =>
              if b = '\\' ∧ u = 'u' then
                match hex4 l1 l2 l3 l4 with
                | none => none
                | some cp2 =>
                  if 0xDC00 ≤ cp2 ∧ cp2 ≤ 0xDFFF then
                    some (Char.ofNat (0x10000 + (cp1 - 0xD800) * 0x400 + (cp2 - 0xDC00)), 11)
                  else none
              else none
            | _ => none
          else if 0xDC00 ≤ cp1 ∧ cp1 ≤ 0xDFFF then none
          else some (Char.ofNat cp1, 5)
      | _ => none
    else
      match unescape e with
      | some ch => some (ch, 1)
      | none => none

/-- Read a string token after its opening quote, one input character at a time: the
string it denotes and the input after the closing quote.  The first argument counts the
characters still to pass over because they belong to an escape already read.  Control
characters must be escaped. -/
def scan_string_from : Nat → Str → Except Exn (Str × Str)
  | _, [] => .error .parse_error
  | skip + 1, _ :: cs => scan_string_from skip cs
  | 0, c :: cs =>
    if c = '"' then .ok ([], cs)
    else if c = '\\' then
      match scan_escape cs with
      | none => .error .parse_error
      | some (ch, k) => push_char ch (scan_string_from k cs)
    else if c.toNat < 0x20 then .error .parse_error
    else push_char c (scan_string_from 0 cs)

/-- Read a string token after its opening quote. -/
def scan_string (cs : Str) : Except Exn (Str × Str) := scan_string_from 0 cs

/-- The optional fraction of a number: a dot and at least one digit. -/
def scan_fraction : Str → Option (Str × Str)
  | [] => some ([], [])
  | c :: r =>
    if c = '.' then
      match r.span Char.isDigit with
      | ([], _) => none
      | (ds, r1) => some ('.' :: ds, r1)
    else some ([], c :: r)

/-- The optional exponent of a number: `e` or `E`, an optional sign, at least one digit. -/
def scan_exponent : Str → Option (Str × Str)
  | [] => some ([], [])
  | c :: r =>
    if c = 'e' ∨ c = 'E' then
      match r with
      | [] => none
      | s :: r1 =>
        if s = '+' ∨ s = '-' then
          match r1.span Char.isDigit with
          | ([], _) => none
          | (ds, r2) => some (c :: s :: ds, r2)
        else
          match (s :: r1).span Char.isDigit with
          | ([], _) => none
          | (ds, r2) => some (c :: ds, r2)
    else some ([], c :: r)

/-- Read a number token that starts at its first digit: the number as written, whether it
is written as an integer (no fraction, no exponent), and the input after it.  A leading
zero ends the integer part. -/
def scan_unsigned : Str → Option (Str × Bool × Str)
  | [] => none
  | d :: r =>
    if d.isDigit then
      let int_part := if d = '0' then ([], r) else r.span Char.isDigit
      match scan_fraction int_part.2 with
      | none => none
      | some (frac, r2) =>
        match scan_exponent r2 with
        | none => none
        | some (exp, r3) => some (d :: int_part.1 ++ frac ++ exp, frac.isEmpty && exp.isEmpty, r3)
    else none

/-- The value of a run of decimal digits. -/
def digits_value (ds : Str) : Nat := ds.foldl (fun n d => 10 * n + (d.toNat - 48)) 0

/-- Read a number token and convert it: an unsigned integer below `2^64` and a negative
integer down to `-2^63` are kept as integers, every other number is read as a double. -/
def scan_number (F : FloatText) (cs : Str) : Except Exn (Json × Str) :=
  let negative := cs.head? = some '-'
  match scan_unsigned (if negative then cs.tail else cs) with
  | none => .error .parse_error
  | some (digits, is_integer, rest) =>
    if is_integer ∧ ¬ negative ∧ digits_value digits < 2 ^ 64 then
      .ok (.numInt (digits_value digits), rest)
    else if is_integer ∧ negative ∧ digits_value digits ≤ 2 ^ 63 then
      .ok (.numInt (- (digits_value digits : Int)), rest)
    else
      match F (if negative then '-' :: digits else digits) with
      | none => .error .number_overflow
      | some (first, text) => .ok (.numFloat first text, rest)

/-- Read one of the literals `true`, `false`, `null`. -/
def scan_literal (name : Str) (v : Json) (cs : Str) : Except Exn (Json × Str) :=
  if name.isPrefixOf cs then .ok (v, cs.drop name.length) else .error .parse_error

/-- The object built from members in the order they are read: each is stored with
`m[key] = value`, so of two members with one key the later one stays. -/
def members_map (ms : List (Str × Json)) : List (Str × Json) :=
  ms.foldl (fun m kv => map_assign kv.1 kv.2 m) []

mutual
/-- Read one value at the start of the input (white space already skipped): the value and
the input after it.  The first argument bounds the number of nested calls. -/
def parse_value (F : FloatText) : Nat → Str → Except Exn (Json × Str)
  | 0, _ => .error .parse_error
  | fuel + 1, cs =>
    match cs with
    | [] => .error .parse_error
    | c :: rest =>
      if c = '"' then
        match scan_string rest with
        | .ok (s, r) => .ok (.str s, r)
        | .error e => .error e
      else if c = '[' then
        match skip_ws rest with
        | [] => .error .parse_error
        | c1 :: r1 =>
          if c1 = ']' then .ok (.arr [], r1)
          else
            match parse_elems F fuel (c1 :: r1) with
            | .ok (vs, r2) => .ok (.arr vs, r2)
            | .error e => .error e
      else if c = '{' then
        match skip_ws rest with
        | [] => .error .parse_error
        | c1 :: r1 =>
          if c1 = '}' then .ok (.obj [], r1)
          else
            match parse_members F fuel (c1 :: r1) with
            | .ok (ms, r2) => .ok (.obj (members_map ms), r2)
            | .error e => .error e
      else if c = 't' then scan_literal "true".toList (.bool true) cs
      else if c = 'f' then scan_literal "false".toList (.bool false) cs
      else if c = 'n' then scan_literal "null".toList .null cs
      else if c = '-' ∨ c.isDigit then scan_number F cs
      else .error .parse_error
/-- Read the elements of a non-empty array up to and including the closing bracket. -/
def parse_elems (F : FloatText) : Nat → Str → Except Exn (List Json × Str)
  | 0, _ => .error .parse_error
  | fuel + 1, cs =>
    match parse_value F fuel cs with
    | .error e => .error e
    | .ok (v, r) =>
      match skip_ws r with
      | [] => .error .parse_error
      | c :: r1 =>
        if c = ',' then
          match parse_elems F fuel (skip_ws r1) with
          | .ok (vs, r2) => .ok (v :: vs, r2)
          | .error e => .error e
        else if c = ']' then .ok ([v], r1)
        else .error .parse_error
/-- Read the members of a non-empty object, in the order written, up to and including
the closing brace. -/
def parse_members (F : FloatText) : Nat → Str → Except Exn (List (Str × Json) × Str)
  | 0, _ => .error .parse_error
  | fuel + 1, cs =>
    match cs with
    | [] => .error .parse_error
    | q :: r =>
      if q = '"' then
        match scan_string r with
        | .error e => .error e
        | .ok (k, r1) =>
          match skip_ws r1 with
          | [] => .error .parse_error
          | colon :: r2 =>
            if colon = ':' then
              match parse_value F fuel (skip_ws r2) with
              | .error e => .error e
              | .ok (v, r3) =>
                match skip_ws r3 with
                | [] => .error .parse_error
                | c :: r4 =>
                  if c = ',' then
                    match parse_members F fuel (skip_ws r4) with
                    | .ok (ms, r5) => .ok ((k, v) :: ms, r5)
                    | .error e => .error e
                  else if c = '}' then .ok ([(k, v)], r4)
                  else .error .parse_error
            else .error .parse_error
      else .error .parse_error
end

/-- The static function `nlohmann::json::parse` with its default arguments (exceptions
on, no comments): a byte order mark and white space are skipped, one value is read, and
only white space may follow it.  The bound on nested calls is never reached (see
`parse_value_fuel`). -/
def parse (F : FloatText) (input : Str) : Except Exn Json :=
  let text := skip_ws (if input.head? = some '\uFEFF' then input.tail else input)
  match parse_value F (2 * text.length + 1) text with
  | .error e => .error e
  | .ok (v, rest) => if skip_ws rest = [] then .ok v else .error .parse_error

/-! ## HTTP messages (Boost.Beast) -/

/-- The request methods of `boost::beast::http::verb`. -/
inductive Verb where
  | unknown | delete_ | get | head | post | put | connect | options | trace
  | copy | lock | mkcol | move | propfind | proppatch | search | unlock
  | bind | rebind | unbind | acl | report | mkactivity | checkout | merge
  | msearch | notify | subscribe | unsubscribe | patch | purge | mkcalendar
  | link | unlink
  deriving DecidableEq, Repr

/-- What `handle_request` can read of an `http::request<http::string_body>`. -/
structure Request where
  method : Verb
  /-- The request target (path). -/
  target : Str
  /-- The HTTP version, as `req.version()` gives it (11 for HTTP/1.1). -/
  version : Nat
  /-- The header fields. -/
  fields : List (Str × Str)
  /-- The value of `req.keep_alive()`. -/
  keep_alive : Bool
  body : Str
  deriving DecidableEq, Repr

/-- What `handle_request` sets of an `http::response<http::string_body>`; a field the
handler does not set is `none`. -/
structure Response where
  /-- The status code. -/
  status : Nat
  version : Nat
  /-- The `Server` field. -/
  server : Option Str
  /-- The `Content-Type` field. -/
  content_type : Option Str
  /-- The argument of `res.keep_alive(..)`. -/
  keep_alive : Option Bool
  /-- The `Content-Length` field, set by `prepare_payload()`. -/
  content_length : Option Nat
  body : Str
  deriving DecidableEq, Repr

/-! ## The request handler -/

/-- The difference `a - b` of two `size_t` values (64 bits, so both below `2^64`): it
wraps around when `a < b`. -/
def size_t_sub (a b : Nat) : Nat := if b ≤ a then a - b else a + 2 ^ 64 - b

/-- The member function `std::string::substr(pos, count)`: it throws when `pos` is past
the end, and otherwise gives at most `count` characters from `pos` on. -/
def substr (s : Str) (pos count : Nat) : Except Exn Str :=
  if s.length < pos then .error .substr_out_of_range else .ok ((s.drop pos).take count)

/-- Lines 56 to 58 of `handle_request`: the body is parsed, the value is printed back with
`dump()`, and the first and the last character of that text are dropped.  The result is the
`request_url` the handler goes on with. -/
def read_request_url (F : FloatText) (body : Str) : Except Exn Str :=
  match parse F body with
  | .error e => .error e
  | .ok json_request =>
    let request_url := dump json_request
    substr request_url 1 (size_t_sub request_url.length 2)

/-- The value `json_reponse` of `handle_request`: an object with the one member
`"shortened url"`. -/
def json_reponse (response_url : Str) : Json :=
  .obj [("shortened url".toList, .str response_url)]

/-- Lines 61 to 68 of `handle_request`: a `request_url` that is no key of the map is
shortened; for one that is a key, the mapped value is the `response_url` and the globals
stay as they are. -/
def lookup_or_shorten (st : State) (request_url : Str) : Str × State :=
  match map_find st.shortened_to_original request_url with
  | none => shorten_url st request_url
  | some original => (original, st)

/-- Lines 70 to 77 of `handle_request`: the response to a POST request. -/
def post_response (req : Request) (response_url : Str) : Response :=
  { status := 200, version := req.version, server := some "Beast".toList,
    content_type := some "application/json".toList, keep_alive := some req.keep_alive,
    content_length := some (dump (json_reponse response_url)).length,
    body := dump (json_reponse response_url) }

/-- The function `handle_request`: the response and the globals afterwards, or the
exception that leaves the function (nothing in it catches one).  Both places that can
throw come before the first write to a global, so the globals are unchanged when an
exception leaves.  The line written to `std::cout` is left out. -/
def handle_request (F : FloatText) (st : State) (req : Request) :
    Except Exn (Response × State) :=
  if req.method = .get then
    .ok ({ status := 200, version := req.version, server := some "Beast".toList,
           content_type := some "text/plain".toList, keep_alive := some req.keep_alive,
           content_length := some "Hello, World!".toList.length,
           body := "Hello, World!".toList }, st)
  else if req.method = .post then
    match read_request_url F req.body with
    | .error e => .error e
    | .ok request_url =>
      .ok (post_response req (lookup_or_shorten st request_url).1,
        (lookup_or_shorten st request_url).2)
  else
    .ok ({ status := 400, version := req.version, server := none, content_type := none,
           keep_alive := none, content_length := none, body := [] }, st)

/-! ## Session and `main` -/

/-- The completion handler of `Session::do_read`: with a transport error nothing is
written; otherwise the response of `handle_request` goes to `do_write`.  The handler has
no `try`, so an exception of `handle_request` leaves it. -/
def Session.do_read (F : FloatText) (st : State) (ec : Bool) (req : Request) :
    Except Exn (Option Response × State) :=
  if ec then .ok (none, st)
  else
    match handle_request F st req with
    | .ok (res, st1) => .ok (some res, st1)
    | .error e => .error e

/-- A run of the service: the responses written so far, the globals, and the exception
that ended the run, if one did. -/
structure Run where
  responses : List Response
  state : State
  stopped : Option Exn
  deriving DecidableEq, Repr

/-- The function `main` on the requests whose reads complete, in that order: `ioc.run()`
calls each session's handler; the first exception that leaves one leaves `ioc.run()`
too, is caught by the `catch` of `main`, and `main` returns: the process ends and the
remaining requests get no response. -/
def main (F : FloatText) : State → List Request → Run
  | st, [] => { responses := [], state := st, stopped := none }
  | st, req :: reqs =>
    match Session.do_read F st false req with
    | .error e => { responses := [], state := st, stopped := some e }
    | .ok (res, st1) =>
      let run := main F st1 reqs
      { run with responses := res.toList ++ run.responses }

/-- A POST request with the given body (HTTP/1.1, keep-alive). -/
def post (body : Str) : Request :=
  { method := .post, target := "/".toList, version := 11, fields := [], keep_alive := true,
    body := body }

/-! ## Notions used by the statements -/

/-- One increment-with-carry step on a code written least significant letter first. -/
def incr_rev : Str → Str
  | [] => []
  | c :: cs => if c = 'Z' then 'A' :: incr_rev cs else Char.ofNat (c.toNat + 1) :: cs

/-- A short code: upper-case letters `A` to `Z` only. -/
def is_code (c : Str) : Prop := ∀ x ∈ c, 65 ≤ x.toNat ∧ x.toNat ≤ 90

/-- The base-26 value of a code: `A` is 0, `Z` is 25, the leftmost letter is the most
significant. -/
def code_value (c : Str) : Nat := c.foldl (fun n x => 26 * n + (x.toNat - 65)) 0

/-- The base-26 value of a code written least significant letter first. -/
def value_rev : Str → Nat
  | [] => 0
  | c :: cs => (c.toNat - 65) + 26 * value_rev cs

/-- The code reached from `"AAAA"` by `i` calls of ` increment_custom_prefix`. -/
def nth_code (i : Nat) : Str := increment_custom_prefix^[i] "AAAA".toList

/-- The body of the response that carries the short URL of a code. -/
def short_url_body (code : Str) : Str :=
  "\x7b\"shortened url\":\"localhost:8080/".toList ++ code ++ "\"\x7d".toList

/-- A character that `dump()` prints as it is: no control character, no double quote, no
backslash. -/
def is_plain (c : Char) : Prop := 0x20 ≤ c.toNat ∧ c ≠ '"' ∧ c ≠ '\\'

/-- The states the service can be in: the globals after `main` has handled some requests
from program start. -/
def Reachable (F : FloatText) (st : State) : Prop :=
  ∃ reqs : List Request, (main F State.fresh reqs).state = st

/-- A sequence of POST requests whose bodies are JSON string literals denoting the given
strings, none of which is a key of the map when its request is handled. -/
def FreshPosts (F : FloatText) : State → List Request → List Str → Prop
  | _, [], [] => True
  | st, r :: rs, u :: us =>
    r.method = .post ∧ parse F r.body = .ok (.str u) ∧
      map_find st.shortened_to_original u = none ∧ FreshPosts F (main F st [r]).state rs us
  | _, _ :: _, [] => False
  | _, [], _ :: _ => False

/-- The invariant of the globals after `n` codes have been issued: the generator holds the
`n`-th code, every key is the short URL of an earlier code, and the map has at least
`min n (26^4)` entries. -/
def Issued (n : Nat) (st : State) : Prop :=
  st.custom_prefix = nth_code n ∧
    (∀ k ∈ map_keys st.shortened_to_original, ∃ j, j < n ∧ k = host_prefix ++ nth_code j) ∧
    min n (26 ^ 4) ≤ st.shortened_to_original.length

/-- The strings `x`, `xx`, `xxx`, ...: one more than `26^4` pairwise distinct strings. -/
@[irreducible] def many_urls : List Str := (List.range (26 ^ 4 + 1)).map (fun i => List.replicate (i + 1) 'x')

/-- The POST requests of the strings of `many_urls`, each body the JSON string literal of
the string. -/
@[irreducible] def many_posts : List Request := many_urls.map (fun u => post (quoted u))

/-- As many POST requests of the string `x` as there are codes of width four. -/
@[irreducible] def wrap_posts : List Request := List.replicate (26 ^ 4) (post (quoted ['x']))

/-! ## The code generator -/

theorem increment_loop_append (p t : Str) :
    increment_loop p.length (p ++ t) = (incr_rev p.reverse).reverse ++ t := by
  induction p using List.reverseRecOn generalizing t with
  | nil => simp [increment_loop, incr_rev]
  | append_singleton q c ih =>
    have hlen : (q ++ [c]).length = q.length + 1 := by simp
    have hget : (q ++ [c] ++ t)[q.length]? = some c := by
      rw [List.append_assoc, List.getElem?_append_right (le_refl _)]; simp
    have hset : ∀ x, (q ++ [c] ++ t).set q.length x = q ++ x :: t := by
      intro x; simp [List.set_append]
    rw [hlen, increment_loop, hget]
    simp only [hset, List.reverse_append, List.reverse_cons, List.reverse_nil, List.nil_append,
      List.singleton_append, incr_rev]
    by_cases hc : c = 'Z'
    · simp only [hc, if_true, ih, List.reverse_cons, List.append_assoc, List.singleton_append]
    · simp only [hc, if_false, List.reverse_cons, List.reverse_reverse, List.append_assoc,
        List.singleton_append]

theorem increment_eq_rev (c : Str) :
    increment_custom_prefix c = (incr_rev c.reverse).reverse := by
  have h := increment_loop_append c []
  simpa [ increment_custom_prefix] using h

theorem incr_rev_length (c : Str) : (incr_rev c).length = c.length := by
  induction c with
  | nil => rfl
  | cons x xs ih => by_cases hx : x = 'Z' <;> simp [incr_rev, hx, ih]

theorem increment_length (c : Str) : ( increment_custom_prefix c).length = c.length := by
  simp [increment_eq_rev, incr_rev_length]

theorem toNat_succ_letter (x : Char) (h1 : 65 ≤ x.toNat) (h2 : x.toNat ≤ 90) (hz : x ≠ 'Z') :
    (Char.ofNat (x.toNat + 1)).toNat = x.toNat + 1 := by
  have hne : x.toNat ≠ 90 := by
    intro h
    apply hz
    rw [← Char.ofNat_toNat x, h]
  have hlt : x.toNat + 1 ≤ 90 := by omega
  generalize x.toNat = n at *
  interval_cases n <;> rfl

theorem is_code_reverse (c : Str) : is_code c.reverse ↔ is_code c := by
  simp [is_code]

theorem is_code_cons (x : Char) (c : Str) :
    is_code (x :: c) ↔ (65 ≤ x.toNat ∧ x.toNat ≤ 90) ∧ is_code c := by
  simp [is_code]

theorem incr_rev_is_code (c : Str) (h : is_code c) : is_code (incr_rev c) := by
  induction c with
  | nil => exact h
  | cons x xs ih =>
    rw [is_code_cons] at h
    by_cases hx : x = 'Z'
    · simp only [incr_rev, hx, if_true, is_code_cons]
      exact ⟨by decide, ih h.2⟩
    · simp only [incr_rev, hx, if_false, is_code_cons]
      have hn := toNat_succ_letter x h.1.1 h.1.2 hx
      have hne : x.toNat ≠ 90 := by
        intro h90
        apply hx
        rw [← Char.ofNat_toNat x, h90]
      exact ⟨⟨by omega, by omega⟩, h.2⟩

theorem value_rev_lt (c : Str) (h : is_code c) : value_rev c < 26 ^ c.length := by
  induction c with
  | nil => simp [value_rev]
  | cons x xs ih =>
    rw [is_code_cons] at h
    have := ih h.2
    simp only [value_rev, List.length_cons, pow_succ]
    omega

theorem value_rev_incr (c : Str) (h : is_code c) :
    value_rev (incr_rev c) = (value_rev c + 1) % 26 ^ c.length := by
  induction c with
  | nil => simp [incr_rev, value_rev]
  | cons x xs ih =>
    rw [is_code_cons] at h
    have hlt := value_rev_lt xs h.2
    by_cases hx : x = 'Z'
    · have h90 : x.toNat = 90 := by rw [hx]; rfl
      have hA : ('A' : Char).toNat = 65 := rfl
      simp only [incr_rev, hx, if_true, value_rev, ih h.2, List.length_cons, hA]
      have hZ : ('Z' : Char).toNat = 90 := rfl
      rw [hZ]
      have : 90 - 65 + 26 * value_rev xs + 1 = 26 * (value_rev xs + 1) := by omega
      rw [this, pow_succ, Nat.mul_comm (26 ^ xs.length) 26, Nat.mul_mod_mul_left]
      omega
    · have hn := toNat_succ_letter x h.1.1 h.1.2 hx
      have hne : x.toNat ≠ 90 := by
        intro h90
        apply hx
        rw [← Char.ofNat_toNat x, h90]
      simp only [incr_rev, hx, if_false, value_rev, hn, List.length_cons, pow_succ]
      rw [Nat.mod_eq_of_lt (by omega)]
      omega

theorem code_value_append (q : Str) (x : Char) :
    code_value (q ++ [x]) = 26 * code_value q + (x.toNat - 65) := by
  simp [code_value, List.foldl_append]

theorem code_value_eq_rev (c : Str) : code_value c = value_rev c.reverse := by
  induction c using List.reverseRecOn with
  | nil => rfl
  | append_singleton q x ih =>
    rw [code_value_append, List.reverse_append, List.reverse_singleton, List.singleton_append,
      value_rev, ih]
    omega

theorem increment_is_code (c : Str) (h : is_code c) : is_code ( increment_custom_prefix c) := by
  rw [increment_eq_rev, is_code_reverse]
  exact incr_rev_is_code _ ((is_code_reverse c).2 h)

theorem increment_value (c : Str) (h : is_code c) :
    code_value ( increment_custom_prefix c) = (code_value c + 1) % 26 ^ c.length := by
  rw [code_value_eq_rev, increment_eq_rev, List.reverse_reverse,
    value_rev_incr _ ((is_code_reverse c).2 h), code_value_eq_rev, List.length_reverse]

theorem value_rev_injective (c d : Str) (hc : is_code c) (hd : is_code d)
    (hlen : c.length = d.length) (hv : value_rev c = value_rev d) : c = d := by
  induction c generalizing d with
  | nil =>
    cases d with
    | nil => rfl
    | cons y ys => simp at hlen
  | cons x xs ih =>
    cases d with
    | nil => simp at hlen
    | cons y ys =>
      rw [is_code_cons] at hc hd
      simp only [value_rev] at hv
      simp only [List.length_cons, Nat.add_right_cancel_iff] at hlen
      have hxy : x.toNat = y.toNat := by omega
      have hrest : value_rev xs = value_rev ys := by omega
      have h1 : x = y := by rw [← Char.ofNat_toNat x, ← Char.ofNat_toNat y, hxy]
      rw [h1, ih ys hc.2 hd.2 hlen hrest]

theorem code_value_injective (c d : Str) (hc : is_code c) (hd : is_code d)
    (hlen : c.length = d.length) (hv : code_value c = code_value d) : c = d := by
  rw [code_value_eq_rev, code_value_eq_rev] at hv
  have := value_rev_injective c.reverse d.reverse ((is_code_reverse c).2 hc)
    ((is_code_reverse d).2 hd) (by simp [hlen]) hv
  exact List.reverse_injective this

theorem nth_code_succ (i : Nat) : nth_code (i + 1) = increment_custom_prefix (nth_code i) := by
  simp [nth_code, Function.iterate_succ_apply']

theorem nth_code_spec (i : Nat) :
    is_code (nth_code i) ∧ (nth_code i).length = 4 ∧ code_value (nth_code i) = i % 26 ^ 4 := by
  induction i with
  | zero =>
    refine ⟨?_, rfl, rfl⟩
    intro x hx
    simp only [nth_code, Function.iterate_zero, id_eq, String.toList, List.mem_cons,
      List.mem_singleton, List.not_mem_nil, or_false, or_self] at hx
    subst hx
    decide
  | succ n ih =>
    obtain ⟨hc, hl, hv⟩ := ih
    rw [nth_code_succ]
    refine ⟨increment_is_code _ hc, by rw [increment_length, hl], ?_⟩
    rw [increment_value _ hc, hl, hv, Nat.add_mod, Nat.mod_mod, ← Nat.add_mod]

theorem nth_code_eq_iff (i j : Nat) : nth_code i = nth_code j ↔ i % 26 ^ 4 = j % 26 ^ 4 := by
  obtain ⟨hci, hli, hvi⟩ := nth_code_spec i
  obtain ⟨hcj, hlj, hvj⟩ := nth_code_spec j
  constructor
  · intro h
    rw [← hvi, ← hvj, h]
  · intro h
    exact code_value_injective _ _ hci hcj (by rw [hli, hlj]) (by rw [hvi, hvj, h])

theorem nth_code_ne (i j : Nat) (hij : i < j) (hj : j < 26 ^ 4) : nth_code i ≠ nth_code j := by
  rw [Ne, nth_code_eq_iff, Nat.mod_eq_of_lt (by omega), Nat.mod_eq_of_lt hj]
  omega

theorem nth_code_wrap (i : Nat) : nth_code (i + 26 ^ 4) = nth_code i := by
  rw [nth_code_eq_iff]
  simp

/-! ## The map -/

theorem map_find_assign {α : Type} (k : Str) (v : α) (m : StdMap α) (j : Str) :
    map_find (map_assign k v m) j = if k = j then some v else map_find m j := by
  induction m with
  | nil => simp [map_assign, map_find]
  | cons e m ih =>
    obtain ⟨k1, v1⟩ := e
    simp only [map_assign]
    by_cases h1 : k1 = k
    · simp only [h1, if_true, map_find]
      by_cases h3 : k = j <;> simp [h3]
    · simp only [h1, if_false]
      cases h2 : strLt k k1
      · simp only [Bool.false_eq_true, if_false, map_find, ih]
        by_cases h3 : k1 = j
        · have : k ≠ j := fun h => h1 (h3.trans h.symm)
          simp [h3, this]
        · simp [h3]
      · simp only [if_true, map_find]

theorem map_keys_assign {α : Type} (k : Str) (v : α) (m : StdMap α) (j : Str) :
    j ∈ map_keys (map_assign k v m) ↔ j = k ∨ j ∈ map_keys m := by
  induction m with
  | nil => simp [map_assign, map_keys]
  | cons e m ih =>
    obtain ⟨k1, v1⟩ := e
    simp only [map_keys] at ih
    simp only [map_assign, map_keys]
    by_cases h1 : k1 = k
    · simp only [h1, if_true, List.map_cons, List.mem_cons]
      tauto
    · simp only [h1, if_false]
      cases h2 : strLt k k1
      · simp only [Bool.false_eq_true, if_false, List.map_cons, List.mem_cons, ih]
        tauto
      · simp only [if_true, List.map_cons, List.mem_cons]

theorem map_assign_length_ge {α : Type} (k : Str) (v : α) (m : StdMap α) :
    m.length ≤ (map_assign k v m).length := by
  induction m with
  | nil => simp [map_assign]
  | cons e m ih =>
    obtain ⟨k1, v1⟩ := e
    simp only [map_assign]
    by_cases h1 : k1 = k
    · simp [h1]
    · cases h2 : strLt k k1
      · simp only [h1, Bool.false_eq_true, if_false, List.length_cons]
        omega
      · simp [h1]

theorem map_assign_length_new {α : Type} (k : Str) (v : α) (m : StdMap α)
    (hk : k ∉ map_keys m) : (map_assign k v m).length = m.length + 1 := by
  induction m with
  | nil => simp [map_assign]
  | cons e m ih =>
    obtain ⟨k1, v1⟩ := e
    simp only [map_keys, List.map_cons, List.mem_cons, not_or] at hk
    have h1 : k1 ≠ k := fun h => hk.1 h.symm
    simp only [map_assign, h1, if_false]
    cases h2 : strLt k k1
    · simp only [Bool.false_eq_true, if_false, List.length_cons]
      rw [ih hk.2]
    · simp

theorem map_find_none_iff {α : Type} (m : StdMap α) (j : Str) :
    map_find m j = none ↔ j ∉ map_keys m := by
  induction m with
  | nil => simp [map_find, map_keys]
  | cons e m ih =>
    obtain ⟨k1, v1⟩ := e
    simp only [map_keys] at ih
    simp only [map_find, map_keys, List.map_cons, List.mem_cons, not_or]
    by_cases h : k1 = j
    · simp only [h, if_true, not_true_eq_false, false_and, iff_false]
      exact fun h2 => Option.noConfusion h2
    · simp only [h, if_false, ih]
      constructor
      · intro hm
        exact ⟨fun h2 => h h2.symm, hm⟩
      · intro hm
        exact hm.2

/-! ## Strings as `dump()` prints them -/

theorem escape_char_plain (c : Char) (h : is_plain c) : escape_char c = [c] := by
  obtain ⟨h1, h2, h3⟩ := h
  have e1 : c ≠ '\x08' := by rintro rfl; exact absurd h1 (by decide)
  have e2 : c ≠ '\t' := by rintro rfl; exact absurd h1 (by decide)
  have e3 : c ≠ '\n' := by rintro rfl; exact absurd h1 (by decide)
  have e4 : c ≠ '\x0c' := by rintro rfl; exact absurd h1 (by decide)
  have e5 : c ≠ '\r' := by rintro rfl; exact absurd h1 (by decide)
  have e6 : ¬ c.toNat ≤ 0x1F := by omega
  simp only [escape_char, e1, e2, e3, e4, e5, h2, h3, e6, if_false]

theorem escape_char_not_plain (c : Char) (h : ¬ is_plain c) :
    ∃ t, escape_char c = '\\' :: t := by
  unfold escape_char
  split_ifs with h1 h2 h3 h4 h5 h6 h7 h8
  all_goals first
    | exact ⟨_, rfl⟩
    | (exfalso; apply h; exact ⟨by omega, h6, h7⟩)

theorem escape_string_append (a b : Str) :
    escape_string (a ++ b) = escape_string a ++ escape_string b := by
  induction a with
  | nil => rfl
  | cons c cs ih => simp [escape_string, ih]

theorem escape_string_plain (u : Str) (h : ∀ c ∈ u, is_plain c) : escape_string u = u := by
  induction u with
  | nil => rfl
  | cons c cs ih =>
    rw [escape_string, escape_char_plain c (h c (List.mem_cons_self _ _)),
      ih (fun x hx => h x (List.mem_cons_of_mem _ hx))]
    rfl

theorem backslash_mem_escape_string (u : Str) (c : Char) (hc : c ∈ u) (h : ¬ is_plain c) :
    '\\' ∈ escape_string u := by
  induction u with
  | nil => simp at hc
  | cons x xs ih =>
    rw [escape_string, List.mem_append]
    rcases List.mem_cons.1 hc with rfl | hx
    · obtain ⟨t, ht⟩ := escape_char_not_plain c h
      left
      rw [ht]
      exact List.mem_cons_self _ _
    · right
      exact ih hx

theorem escape_string_eq_plain (u k : Str) (hk : ∀ c ∈ k, is_plain c)
    (h : escape_string u = k) : u = k := by
  by_cases hu : ∀ c ∈ u, is_plain c
  · rw [← h, escape_string_plain u hu]
  · exfalso
    push_neg at hu
    obtain ⟨c, hc, hnp⟩ := hu
    have := backslash_mem_escape_string u c hc hnp
    rw [h] at this
    exact (hk _ this).2.2 rfl

theorem is_code_plain (c : Str) (h : is_code c) : ∀ x ∈ c, is_plain x := by
  intro x hx
  obtain ⟨h1, h2⟩ := h x hx
  refine ⟨by omega, ?_, ?_⟩
  · rintro rfl; exact absurd h1 (by decide)
  · rintro rfl; exact absurd h2 (by decide)

theorem host_prefix_plain : ∀ x ∈ host_prefix, is_plain x := by
  intro x hx
  simp only [ host_prefix, String.toList, List.mem_cons, List.mem_singleton, List.not_mem_nil,
    or_false] at hx
  rcases hx with h | h | h | h | h | h | h | h | h | h | h | h | h | h | h <;>
    (subst h; exact ⟨by decide, by decide, by decide⟩)

theorem short_url_plain (c : Str) (h : is_code c) : ∀ x ∈ host_prefix ++ c, is_plain x := by
  intro x hx
  rcases List.mem_append.1 hx with h1 | h1
  · exact host_prefix_plain x h1
  · exact is_code_plain c h x h1

theorem dump_json_reponse (url : Str) :
    dump (json_reponse url) =
      "\x7b\"shortened url\":\"".toList ++ escape_string url ++ "\"\x7d".toList := by
  have hkey : escape_string "shortened url".toList = "shortened url".toList := by decide
  simp only [json_reponse, dump, dump_members, quoted, List.append_nil, hkey]
  simp

theorem dump_short_url (c : Str) (h : is_code c) :
    dump (json_reponse ( host_prefix ++ c)) = short_url_body c := by
  rw [dump_json_reponse, escape_string_plain _ (short_url_plain c h)]
  simp [short_url_body, host_prefix]

/-! ## The request handler -/

theorem substr_quoted (e : Str) :
    substr ('"' :: e ++ ['"']) 1 (size_t_sub ('"' :: e ++ ['"']).length 2) = .ok e := by
  have hlen : ('"' :: e ++ ['"']).length = e.length + 2 := by simp
  have hsub : size_t_sub (e.length + 2) 2 = e.length := by
    simp [size_t_sub]
  rw [hlen, hsub]
  simp [substr]

theorem read_request_url_str (F : FloatText) (body u : Str)
    (h : parse F body = .ok (.str u)) : read_request_url F body = .ok (escape_string u) := by
  simp only [read_request_url, h, dump, quoted]
  exact substr_quoted _

theorem handle_request_post (F : FloatText) (st : State) (req : Request) (x : Str)
    (hm : req.method = .post) (hx : read_request_url F req.body = .ok x) :
    handle_request F st req =
      .ok (post_response req (lookup_or_shorten st x).1, (lookup_or_shorten st x).2) := by
  simp [handle_request, hm, hx]

theorem handle_request_post_error (F : FloatText) (st : State) (req : Request) (e : Exn)
    (hm : req.method = .post) (hx : read_request_url F req.body = .error e) :
    handle_request F st req = .error e := by
  simp [handle_request, hm, hx]

theorem lookup_or_shorten_new (st : State) (x : Str)
    (h : map_find st.shortened_to_original x = none) :
    lookup_or_shorten st x = shorten_url st x := by
  simp [lookup_or_shorten, h]

theorem lookup_or_shorten_found (st : State) (x v : Str)
    (h : map_find st.shortened_to_original x = some v) :
    lookup_or_shorten st x = (v, st) := by
  simp [lookup_or_shorten, h]

/-! ## The invariant of the globals -/

theorem issued_fresh : Issued 0 State.fresh := by
  refine ⟨rfl, ?_, ?_⟩
  · intro k hk
    simp [State.fresh, map_keys] at hk
  · simp

theorem issued_key_new (n : Nat) (st : State) (h : Issued n st) (hn : n < 26 ^ 4) :
    host_prefix ++ st.custom_prefix ∉ map_keys st.shortened_to_original := by
  intro hmem
  obtain ⟨hp, hkeys, _⟩ := h
  obtain ⟨j, hj, hjk⟩ := hkeys _ hmem
  rw [hp] at hjk
  exact nth_code_ne j n hj hn (List.append_cancel_left hjk).symm

theorem issued_shorten (n : Nat) (st : State) (x : Str) (h : Issued n st) :
    Issued (n + 1) (shorten_url st x).2 := by
  have hnew := issued_key_new n st h
  obtain ⟨hp, hkeys, hlen⟩ := h
  refine ⟨?_, ?_, ?_⟩
  · simp only [shorten_url, hp, nth_code_succ]
  · intro k hk
    simp only [shorten_url] at hk
    rcases (map_keys_assign _ _ _ _).1 hk with h1 | h1
    · exact ⟨n, Nat.lt_succ_self n, by rw [h1, hp]⟩
    · obtain ⟨j, hj, hjk⟩ := hkeys k h1
      exact ⟨j, Nat.lt_succ_of_lt hj, hjk⟩
  · simp only [shorten_url]
    by_cases hn : n < 26 ^ 4
    · rw [map_assign_length_new _ _ _ (hnew hn)]
      omega
    · have := map_assign_length_ge ( host_prefix ++ st.custom_prefix) x st.shortened_to_original
      omega

theorem issued_lookup_or_shorten (n : Nat) (st : State) (x : Str) (h : Issued n st) :
    ∃ n1, Issued n1 (lookup_or_shorten st x).2 := by
  cases hf : map_find st.shortened_to_original x with
  | none =>
    rw [lookup_or_shorten_new st x hf]
    exact ⟨n + 1, issued_shorten n st x h⟩
  | some v =>
    rw [lookup_or_shorten_found st x v hf]
    exact ⟨n, h⟩

theorem main_nil (F : FloatText) (st : State) :
    main F st [] = { responses := [], state := st, stopped := none } := rfl

theorem main_cons_ok (F : FloatText) (st st1 : State) (req : Request) (reqs : List Request)
    (res : Response) (h : handle_request F st req = .ok (res, st1)) :
    main F st (req :: reqs) =
      { responses := res :: (main F st1 reqs).responses, state := (main F st1 reqs).state,
        stopped := (main F st1 reqs).stopped } := by
  simp [main, Session.do_read, h]

theorem main_cons_error (F : FloatText) (st : State) (req : Request) (reqs : List Request)
    (e : Exn) (h : handle_request F st req = .error e) :
    main F st (req :: reqs) = { responses := [], state := st, stopped := some e } := by
  simp [main, Session.do_read, h]

theorem handle_request_state (F : FloatText) (st : State) (req : Request) :
    (∃ e, handle_request F st req = .error e) ∨
    (∃ res, handle_request F st req = .ok (res, st)) ∨
    (∃ res x, handle_request F st req = .ok (res, (lookup_or_shorten st x).2)) := by
  by_cases hg : req.method = .get
  · right; left
    simp [handle_request, hg]
  · by_cases hp : req.method = .post
    · cases hx : read_request_url F req.body with
      | error e => left; exact ⟨e, handle_request_post_error F st req e hp hx⟩
      | ok x => right; right; exact ⟨_, x, handle_request_post F st req x hp hx⟩
    · right; left
      simp [handle_request, hg, hp]

theorem issued_handle_request (F : FloatText) (n : Nat) (st st1 : State) (req : Request)
    (res : Response) (h : Issued n st) (hr : handle_request F st req = .ok (res, st1)) :
    ∃ n1, Issued n1 st1 := by
  rcases handle_request_state F st req with ⟨e, he⟩ | ⟨res1, h1⟩ | ⟨res1, x, h1⟩
  · rw [he] at hr; cases hr
  · rw [h1] at hr
    cases hr
    exact ⟨n, h⟩
  · rw [h1] at hr
    cases hr
    exact issued_lookup_or_shorten n st x h

theorem issued_main (F : FloatText) (reqs : List Request) :
    ∀ (n : Nat) (st : State), Issued n st → ∃ n1, Issued n1 (main F st reqs).state := by
  induction reqs with
  | nil => intro n st h; exact ⟨n, h⟩
  | cons req reqs ih =>
    intro n st h
    cases hr : handle_request F st req with
    | error e =>
      rw [main_cons_error F st req reqs e hr]
      exact ⟨n, h⟩
    | ok p =>
      obtain ⟨res, st1⟩ := p
      rw [main_cons_ok F st st1 req reqs res hr]
      obtain ⟨n1, h1⟩ := issued_handle_request F n st st1 req res h hr
      exact ih n1 st1 h1

theorem reachable_issued (F : FloatText) (st : State) (h : Reachable F st) :
    ∃ n, Issued n st := by
  obtain ⟨reqs, rfl⟩ := h
  exact issued_main F reqs 0 State.fresh issued_fresh

theorem issued_keys_plain (n : Nat) (st : State) (h : Issued n st) :
    ∀ k ∈ map_keys st.shortened_to_original, ∀ c ∈ k, is_plain c := by
  intro k hk
  obtain ⟨j, _, rfl⟩ := h.2.1 k hk
  exact short_url_plain _ (nth_code_spec j).1

theorem issued_find_escape (n : Nat) (st : State) (u : Str) (h : Issued n st)
    (hu : map_find st.shortened_to_original u = none) :
    map_find st.shortened_to_original (escape_string u) = none := by
  rw [map_find_none_iff] at hu ⊢
  intro hmem
  have := escape_string_eq_plain u _ (issued_keys_plain n st h _ hmem) rfl
  rw [← this] at hmem
  exact hu hmem

/-! ## Runs of fresh POST requests -/

theorem fresh_post_step (F : FloatText) (n : Nat) (st : State) (r : Request) (u : Str)
    (h : Issued n st) (hm : r.method = .post) (hp : parse F r.body = .ok (.str u))
    (hu : map_find st.shortened_to_original u = none) :
    handle_request F st r =
      .ok (post_response r ( host_prefix ++ nth_code n), (shorten_url st (escape_string u)).2) := by
  rw [handle_request_post F st r _ hm (read_request_url_str F r.body u hp),
    lookup_or_shorten_new st _ (issued_find_escape n st u h hu)]
  simp [shorten_url, h.1]

theorem fresh_posts_run (F : FloatText) (reqs : List Request) :
    ∀ (urls : List Str) (n : Nat) (st : State), Issued n st → FreshPosts F st reqs urls →
      (main F st reqs).responses.map Response.body =
          (List.range' n reqs.length).map (fun i => short_url_body (nth_code i)) ∧
        (main F st reqs).stopped = none ∧
        Issued (n + reqs.length) (main F st reqs).state := by
  induction reqs with
  | nil =>
    intro urls n st h _
    exact ⟨rfl, rfl, h⟩
  | cons r rs ih =>
    intro urls n st h hf
    cases urls with
    | nil => exact absurd hf (by simp [FreshPosts])
    | cons u us =>
      obtain ⟨hm, hp, hu, hrest⟩ := hf
      have hstep := fresh_post_step F n st r u h hm hp hu
      have hone : (main F st [r]).state = (shorten_url st (escape_string u)).2 := by
        rw [main_cons_ok F st _ r [] _ hstep]
        rfl
      rw [hone] at hrest
      obtain ⟨h1, h2, h3⟩ := ih us (n + 1) _ (issued_shorten n st _ h) hrest
      rw [main_cons_ok F st _ r rs _ hstep]
      refine ⟨?_, h2, ?_⟩
      · simp only [List.map_cons, h1, List.length_cons, List.range'_succ]
        congr 1
        exact dump_short_url _ (nth_code_spec n).1
      · have : n + (r :: rs).length = n + 1 + rs.length := by
          simp only [List.length_cons]; omega
        rw [this]
        exact h3

theorem nth_codes_nodup (N : Nat) (hN : N ≤ 26 ^ 4) :
    ((List.range N).map nth_code).Nodup := by
  refine List.Nodup.map_on ?_ (List.nodup_range N)
  intro i hi j hj hij
  rw [List.mem_range] at hi hj
  by_contra hne
  rcases Nat.lt_or_gt_of_ne hne with h | h
  · exact nth_code_ne i j h (by omega) hij
  · exact nth_code_ne j i h (by omega) hij.symm

/-! ## String literals without escapes -/

theorem scan_string_plain (u r : Str) (h : ∀ c ∈ u, is_plain c) :
    scan_string (u ++ '"' :: r) = .ok (u, r) := by
  unfold scan_string
  induction u with
  | nil => simp [scan_string_from]
  | cons c cs ih =>
    obtain ⟨h1, h2, h3⟩ := h c (List.mem_cons_self _ _)
    have h4 : ¬ c.toNat < 0x20 := by omega
    rw [List.cons_append, scan_string_from]
    simp only [h2, h3, h4, if_false, ih (fun x hx => h x (List.mem_cons_of_mem _ hx)),
      push_char]

theorem parse_quoted_plain (F : FloatText) (u : Str) (h : ∀ c ∈ u, is_plain c) :
    parse F (quoted u) = .ok (.str u) := by
  have hq : quoted u = '"' :: (u ++ '"' :: []) := by
    simp [quoted, escape_string_plain u h]
  have hbom : ('"' :: (u ++ '"' :: [])).head? ≠ some '﻿' := by
    simp only [List.head?_cons, ne_eq, Option.some.injEq]
    decide
  have hws : skip_ws ('"' :: (u ++ '"' :: [])) = '"' :: (u ++ '"' :: []) := by
    rw [skip_ws]
    have : is_ws '"' = false := by decide
    simp [this]
  rw [hq]
  simp only [parse, hbom, if_false, hws]
  rw [parse_value]
  simp only [if_true, scan_string_plain u [] h]
  simp [skip_ws]

/-! ## The printed text of a value is never empty -/

theorem toDigitsCore_ne_nil (b fuel n : Nat) (ds : List Char) (h : ds ≠ [] ∨ 0 < fuel) :
    Nat.toDigitsCore b fuel n ds ≠ [] := by
  induction fuel generalizing n ds with
  | zero =>
    rcases h with h | h
    · simpa [Nat.toDigitsCore] using h
    · exact absurd h (Nat.lt_irrefl 0)
  | succ f ih =>
    simp only [Nat.toDigitsCore]
    split
    · exact List.cons_ne_nil _ _
    · exact ih _ _ (Or.inl (List.cons_ne_nil _ _))

theorem dump_int_ne_nil (i : Int) : dump_int i ≠ [] := by
  unfold dump_int
  split
  · exact List.cons_ne_nil _ _
  · exact toDigitsCore_ne_nil _ _ _ _ (Or.inr (Nat.succ_pos _))

theorem dump_ne_nil (v : Json) : dump v ≠ [] := by
  cases v with
  | null => simp [dump]
  | bool b => cases b <;> simp [dump]
  | numInt i => simpa [dump] using dump_int_ne_nil i
  | numFloat c t => simp [dump]
  | str s => simp [dump, quoted]
  | arr xs => cases xs <;> simp [dump]
  | obj ms =>
    cases ms with
    | nil => simp [dump]
    | cons e ms => obtain ⟨k, w⟩ := e; simp [dump]

theorem substr_strip (d : Str) (h : d ≠ []) :
    substr d 1 (size_t_sub d.length 2) = .ok ((d.drop 1).take (d.length - 2)) := by
  have hpos : 1 ≤ d.length := List.length_pos.2 h
  have hnot : ¬ d.length < 1 := by omega
  simp only [substr, hnot, if_false]
  by_cases h2 : 2 ≤ d.length
  · simp [size_t_sub, h2]
  · have h1 : d.length = 1 := by omega
    have hdrop : d.drop 1 = [] := by
      apply List.drop_eq_nil_of_le
      omega
    simp [hdrop]

theorem read_request_url_ok (F : FloatText) (body : Str) (v : Json)
    (h : parse F body = .ok v) :
    read_request_url F body = .ok (((dump v).drop 1).take ((dump v).length - 2)) := by
  simp only [read_request_url, h]
  exact substr_strip _ (dump_ne_nil v)

theorem read_request_url_error (F : FloatText) (body : Str) (e : Exn)
    (h : parse F body = .error e) : read_request_url F body = .error e := by
  simp only [read_request_url, h]

/-! ## Statements about single requests -/

/-- C7: for every request whose method is GET, whatever its target, header fields and body
and whatever the globals, `handle_request` returns a response with status 200, content
type `text/plain` and the body `Hello, World!` (and leaves the globals as they are). -/
theorem get_hello_world (F : FloatText) (st : State) (req : Request)
    (hm : req.method = .get) :
    ∃ res, handle_request F st req = .ok (res, st) ∧ res.status = 200 ∧
      res.content_type = some "text/plain".toList ∧ res.body = "Hello, World!".toList := by
  simp [handle_request, hm]

theorem get_hello_world_witness :
    (Request.mk .get "/any/path".toList 11 [("Accept".toList, "*/*".toList)] false
        "ignored".toList).method = .get ∧
      ∃ res, handle_request FloatText.echo (shorten_url State.fresh "u".toList).2
          (Request.mk .get "/any/path".toList 11 [("Accept".toList, "*/*".toList)] false
            "ignored".toList) = .ok (res, (shorten_url State.fresh "u".toList).2) ∧
        res.status = 200 ∧ res.content_type = some "text/plain".toList ∧
        res.body = "Hello, World!".toList :=
  ⟨rfl, get_hello_world FloatText.echo _ _ rfl⟩

/-- C8: for every request whose method is neither GET nor POST, `handle_request` returns a
response with status 400 and an empty body (and leaves the globals as they are). -/
theorem unsupported_method (F : FloatText) (st : State) (req : Request)
    (hg : req.method ≠ .get) (hp : req.method ≠ .post) :
    ∃ res, handle_request F st req = .ok (res, st) ∧ res.status = 400 ∧ res.body = [] := by
  simp [handle_request, hg, hp]

theorem unsupported_method_witness :
    (Request.mk .delete_ "/AAAA".toList 11 [] true []).method ≠ .get ∧
      (Request.mk .delete_ "/AAAA".toList 11 [] true []).method ≠ .post ∧
      ∃ res, handle_request FloatText.echo State.fresh
          (Request.mk .delete_ "/AAAA".toList 11 [] true []) = .ok (res, State.fresh) ∧
        res.status = 400 ∧ res.body = [] :=
  ⟨by decide, by decide, unsupported_method FloatText.echo _ _ (by decide) (by decide)⟩

/-- C9: ` increment_custom_prefix` is the base-26 successor with wrap-around on a code of
fixed width: for every code of upper-case letters and width at least 1 the result has the
same width, consists of upper-case letters, and its base-26 value is the value of the code
plus one modulo `26 ^ width`; in particular `ZZZZ` becomes `AAAA`. -/
theorem increment_is_successor (c : Str) (hc : is_code c) (hw : 1 ≤ c.length) :
    ( increment_custom_prefix c).length = c.length ∧
      is_code ( increment_custom_prefix c) ∧
      code_value ( increment_custom_prefix c) = (code_value c + 1) % 26 ^ c.length ∧
      increment_custom_prefix "ZZZZ".toList = "AAAA".toList :=
  ⟨increment_length c, increment_is_code c hc, increment_value c hc, by decide⟩

theorem increment_is_successor_witness :
    is_code "AZZZ".toList ∧ 1 ≤ "AZZZ".toList.length ∧
      ( increment_custom_prefix "AZZZ".toList).length = "AZZZ".toList.length ∧
      is_code ( increment_custom_prefix "AZZZ".toList) ∧
      code_value ( increment_custom_prefix "AZZZ".toList) =
        (code_value "AZZZ".toList + 1) % 26 ^ "AZZZ".toList.length ∧
      increment_custom_prefix "ZZZZ".toList = "AAAA".toList :=
  have h : is_code "AZZZ".toList := by
    intro x hx
    simp only [String.toList, List.mem_cons, List.mem_singleton, List.not_mem_nil,
      or_false] at hx
    rcases hx with h | h | h | h <;> (subst h; decide)
  ⟨h, by decide, increment_is_successor "AZZZ".toList h (by decide)⟩

/-- C4, as the code has it: for every POST request on whose body `parse` throws (in
particular every body that is not valid JSON), `handle_request` produces no response: the
exception leaves `handle_request` and the read handler of the `Session` with the globals
unchanged, and `main`, which catches it, returns: the service stops and the requests
after it get no response. -/
theorem invalid_json_throws (F : FloatText) (st : State) (req : Request) (e : Exn)
    (reqs : List Request) (hm : req.method = .post) (hp : parse F req.body = .error e) :
    handle_request F st req = .error e ∧ Session.do_read F st false req = .error e ∧
      main F st (req :: reqs) = { responses := [], state := st, stopped := some e } := by
  have h := handle_request_post_error F st req e hm (read_request_url_error F req.body e hp)
  exact ⟨h, by simp [Session.do_read, h], main_cons_error F st req reqs e h⟩

theorem invalid_json_throws_witness :
    (post "[1, 2".toList).method = .post ∧
      parse FloatText.echo (post "[1, 2".toList).body = .error .parse_error ∧
      handle_request FloatText.echo State.fresh (post "[1, 2".toList) = .error .parse_error ∧
      Session.do_read FloatText.echo State.fresh false (post "[1, 2".toList) =
        .error .parse_error ∧
      main FloatText.echo State.fresh [post "[1, 2".toList, post "\"u\"".toList] =
        { responses := [], state := State.fresh, stopped := some .parse_error } :=
  ⟨rfl, rfl, invalid_json_throws FloatText.echo State.fresh (post "[1, 2".toList)
    .parse_error [post "\"u\"".toList] rfl rfl⟩

/-- C4 as stated fails: on the POST body `not json` the handler returns no response at all
(so none with status 400), the exception reaches `main`, and the service has stopped:
the valid request that follows is not answered. -/
theorem invalid_json_no_400 :
    handle_request FloatText.echo State.fresh (post "not json".toList) = .error .parse_error ∧
      main FloatText.echo State.fresh [post "not json".toList, post "\"u\"".toList] =
        { responses := [], state := State.fresh, stopped := some .parse_error } :=
  ⟨rfl, rfl⟩

/-- C5, as the code has it: for every POST request whose body is valid JSON but not a JSON
string, `handle_request` throws nothing and answers with status 200 and content type
`application/json`; it goes on with the printed text of the value without its first and
last character as the `request_url`, and when that text is not a key of the map a short
code is issued and an entry for it is stored. -/
theorem non_string_body_accepted (F : FloatText) (st : State) (req : Request) (v : Json)
    (hm : req.method = .post) (hp : parse F req.body = .ok v) (hv : ∀ s, v ≠ .str s) :
    ∃ res st1, handle_request F st req = .ok (res, st1) ∧ res.status = 200 ∧
      res.content_type = some "application/json".toList ∧
      (map_find st.shortened_to_original (((dump v).drop 1).take ((dump v).length - 2)) = none →
        res.body = dump (json_reponse ( host_prefix ++ st.custom_prefix)) ∧
        st1.custom_prefix = increment_custom_prefix st.custom_prefix ∧
        map_find st1.shortened_to_original ( host_prefix ++ st.custom_prefix) =
          some (((dump v).drop 1).take ((dump v).length - 2))) := by
  refine ⟨_, _, handle_request_post F st req _ hm (read_request_url_ok F req.body v hp),
    rfl, rfl, ?_⟩
  intro hnone
  rw [lookup_or_shorten_new st _ hnone]
  refine ⟨rfl, rfl, ?_⟩
  simp [shorten_url, map_find_assign]

theorem non_string_body_accepted_witness :
    (post "[1, true]".toList).method = .post ∧
      parse FloatText.echo (post "[1, true]".toList).body =
        .ok (.arr [.numInt 1, .bool true]) ∧
      (∀ s, Json.arr [.numInt 1, .bool true] ≠ .str s) ∧
      ∃ res st1, handle_request FloatText.echo State.fresh (post "[1, true]".toList) =
          .ok (res, st1) ∧ res.status = 200 ∧
        res.content_type = some "application/json".toList ∧
        (map_find State.fresh.shortened_to_original
            (((dump (.arr [.numInt 1, .bool true])).drop 1).take
              ((dump (.arr [.numInt 1, .bool true])).length - 2)) = none →
          res.body = dump (json_reponse ( host_prefix ++ State.fresh.custom_prefix)) ∧
          st1.custom_prefix = increment_custom_prefix State.fresh.custom_prefix ∧
          map_find st1.shortened_to_original ( host_prefix ++ State.fresh.custom_prefix) =
            some (((dump (.arr [.numInt 1, .bool true])).drop 1).take
              ((dump (.arr [.numInt 1, .bool true])).length - 2))) :=
  ⟨rfl, rfl, fun _ h => Json.noConfusion h,
    non_string_body_accepted FloatText.echo State.fresh (post "[1, true]".toList)
      (.arr [.numInt 1, .bool true]) rfl rfl (fun _ h => Json.noConfusion h)⟩

/-- C5 as stated fails: the POST body `123` is valid JSON and not a string, yet the handler
answers 200 with the short URL of `AAAA`, issues that code and stores the entry
`localhost:8080/AAAA -> 2`. -/
theorem number_body_is_shortened :
    parse FloatText.echo "123".toList = .ok (.numInt 123) ∧
      handle_request FloatText.echo State.fresh (post "123".toList) =
        .ok (post_response (post "123".toList) "localhost:8080/AAAA".toList,
          { shortened_to_original := [("localhost:8080/AAAA".toList, "2".toList)],
            custom_prefix := "AAAB".toList }) ∧
      (post_response (post "123".toList) "localhost:8080/AAAA".toList).status = 200 :=
  ⟨rfl, rfl, rfl⟩

/-- C10, at the failing input: the POST body `"a\"b"` is the JSON string literal of the
three characters `a"b`, but the string the handler looks up and stores as the original URL
is the four characters `a\"b`, the escaped text of the literal. -/
theorem escaped_literal_is_not_unquoted :
    parse FloatText.echo "\"a\\\"b\"".toList = .ok (.str "a\"b".toList) ∧
      read_request_url FloatText.echo "\"a\\\"b\"".toList = .ok "a\\\"b".toList ∧
      handle_request FloatText.echo State.fresh (post "\"a\\\"b\"".toList) =
        .ok (post_response (post "\"a\\\"b\"".toList) "localhost:8080/AAAA".toList,
          { shortened_to_original := [("localhost:8080/AAAA".toList, "a\\\"b".toList)],
            custom_prefix := "AAAB".toList }) :=
  ⟨rfl, rfl, rfl⟩

/-- C2, at the failing input: from program start, the POST of the JSON string literal of
`a"b` returns the short URL of `AAAA`, and the POST of that short URL that follows returns
`a\"b` (printed as `"a\\\"b"`), not `a"b`; that second POST issues no code. -/
theorem round_trip_escaped :
    parse FloatText.echo "\"a\\\"b\"".toList = .ok (.str "a\"b".toList) ∧
      (main FloatText.echo State.fresh
          [post "\"a\\\"b\"".toList, post "\"localhost:8080/AAAA\"".toList]).responses.map
          Response.body =
        ["\x7b\"shortened url\":\"localhost:8080/AAAA\"\x7d".toList,
          dump (json_reponse "a\\\"b".toList)] ∧
      dump (json_reponse "a\\\"b".toList) = "\x7b\"shortened url\":\"a\\\\\\\"b\"\x7d".toList ∧
      (main FloatText.echo State.fresh
          [post "\"a\\\"b\"".toList, post "\"localhost:8080/AAAA\"".toList]).state =
        (main FloatText.echo State.fresh [post "\"a\\\"b\"".toList]).state :=
  ⟨rfl, rfl, rfl, rfl⟩

/-! ## Two POST requests in a row -/

theorem short_url_body_injective (c d : Str) (h : short_url_body c = short_url_body d) :
    c = d := by
  unfold short_url_body at h
  rw [List.append_assoc, List.append_assoc] at h
  exact List.append_cancel_right (List.append_cancel_left h)

theorem nth_code_succ_ne (n : Nat) : nth_code n ≠ nth_code (n + 1) := by
  rw [Ne, nth_code_eq_iff]
  have h : (26 : Nat) ^ 4 = 456976 := by norm_num
  rw [h]
  omega

/-- The round trip for a string without escapes, in every reachable state: the POST of a
string `u` that is not a key returns the next short URL, and the POST of that short URL
returns `u` and changes nothing. -/
theorem round_trip_plain (F : FloatText) (st : State) (r1 r2 : Request) (u : Str)
    (hr : Reachable F st) (hplain : ∀ c ∈ u, is_plain c)
    (hm1 : r1.method = .post) (hb1 : parse F r1.body = .ok (.str u))
    (hu : map_find st.shortened_to_original u = none)
    (hm2 : r2.method = .post)
    (hb2 : parse F r2.body = .ok (.str ( host_prefix ++ st.custom_prefix))) :
    ∃ st1, handle_request F st r1 =
        .ok (post_response r1 ( host_prefix ++ st.custom_prefix), st1) ∧
      handle_request F st1 r2 = .ok (post_response r2 u, st1) := by
  obtain ⟨n, hn⟩ := reachable_issued F st hr
  have h1 := fresh_post_step F n st r1 u hn hm1 hb1 hu
  rw [← hn.1] at h1
  refine ⟨_, h1, ?_⟩
  have hcode : is_code st.custom_prefix := by rw [hn.1]; exact (nth_code_spec n).1
  have hread := read_request_url_str F r2.body _ hb2
  rw [escape_string_plain _ (short_url_plain _ hcode)] at hread
  rw [handle_request_post F _ r2 _ hm2 hread]
  have hfind : map_find (shorten_url st (escape_string u)).2.shortened_to_original
      ( host_prefix ++ st.custom_prefix) = some u := by
    simp [shorten_url, map_find_assign, escape_string_plain u hplain]
  rw [lookup_or_shorten_found _ _ u hfind]

/-- C3, as the code has it: in every reachable state, for every string `u` that is not a
key of the map and is not the short URL about to be issued (`localhost:8080/` followed by
the current code), two POST requests of `u` in a row return two different short URLs: the
one of the current code and the one of the next code. -/
theorem duplicate_post_new_code (F : FloatText) (st : State) (r1 r2 : Request) (u : Str)
    (hr : Reachable F st)
    (hm1 : r1.method = .post) (hb1 : parse F r1.body = .ok (.str u))
    (hm2 : r2.method = .post) (hb2 : parse F r2.body = .ok (.str u))
    (hu : map_find st.shortened_to_original u = none)
    (hne : u ≠ host_prefix ++ st.custom_prefix) :
    ∃ res1 st1 res2 st2, handle_request F st r1 = .ok (res1, st1) ∧
      handle_request F st1 r2 = .ok (res2, st2) ∧
      res1.body = short_url_body st.custom_prefix ∧
      res2.body = short_url_body ( increment_custom_prefix st.custom_prefix) ∧
      res1.body ≠ res2.body := by
  obtain ⟨n, hn⟩ := reachable_issued F st hr
  have h1 := fresh_post_step F n st r1 u hn hm1 hb1 hu
  have hn1 := issued_shorten n st (escape_string u) hn
  have hu1 : map_find (shorten_url st (escape_string u)).2.shortened_to_original u = none := by
    simp only [shorten_url, map_find_assign, hu]
    simp [Ne.symm hne]
  have h2 := fresh_post_step F (n + 1) _ r2 u hn1 hm2 hb2 hu1
  have e1 : (post_response r1 ( host_prefix ++ nth_code n)).body = short_url_body (nth_code n) :=
    dump_short_url _ (nth_code_spec n).1
  have e2 : (post_response r2 ( host_prefix ++ nth_code (n + 1))).body =
      short_url_body (nth_code (n + 1)) := dump_short_url _ (nth_code_spec (n + 1)).1
  refine ⟨_, _, _, _, h1, h2, ?_, ?_, ?_⟩
  · rw [e1, hn.1]
  · rw [e2, hn.1, nth_code_succ]
  · rw [e1, e2]
    intro h
    exact nth_code_succ_ne n (short_url_body_injective _ _ h)

theorem duplicate_post_new_code_witness :
    Reachable FloatText.echo State.fresh ∧
      (post "\"http://example.com\"".toList).method = .post ∧
      parse FloatText.echo (post "\"http://example.com\"".toList).body =
        .ok (.str "http://example.com".toList) ∧
      map_find State.fresh.shortened_to_original "http://example.com".toList = none ∧
      "http://example.com".toList ≠ host_prefix ++ State.fresh.custom_prefix ∧
      ∃ res1 st1 res2 st2,
        handle_request FloatText.echo State.fresh (post "\"http://example.com\"".toList) =
          .ok (res1, st1) ∧
        handle_request FloatText.echo st1 (post "\"http://example.com\"".toList) =
          .ok (res2, st2) ∧
        res1.body = short_url_body State.fresh.custom_prefix ∧
        res2.body = short_url_body ( increment_custom_prefix State.fresh.custom_prefix) ∧
        res1.body ≠ res2.body :=
  ⟨⟨[], rfl⟩, rfl, rfl, rfl, by decide,
    duplicate_post_new_code FloatText.echo State.fresh (post "\"http://example.com\"".toList)
      (post "\"http://example.com\"".toList) "http://example.com".toList ⟨[], rfl⟩ rfl rfl
      rfl rfl rfl (by decide)⟩

/-- C3 as stated fails: at program start the string `localhost:8080/AAAA` is not a key of
the (empty) map, yet two POST requests of it in a row return the same short URL,
`localhost:8080/AAAA`, and the second one issues no code. -/
theorem duplicate_post_same_url :
    parse FloatText.echo "\"localhost:8080/AAAA\"".toList =
        .ok (.str "localhost:8080/AAAA".toList) ∧
      map_find State.fresh.shortened_to_original "localhost:8080/AAAA".toList = none ∧
      (main FloatText.echo State.fresh
          [post "\"localhost:8080/AAAA\"".toList,
            post "\"localhost:8080/AAAA\"".toList]).responses.map Response.body =
        ["\x7b\"shortened url\":\"localhost:8080/AAAA\"\x7d".toList,
          "\x7b\"shortened url\":\"localhost:8080/AAAA\"\x7d".toList] ∧
      (main FloatText.echo State.fresh
          [post "\"localhost:8080/AAAA\"".toList,
            post "\"localhost:8080/AAAA\"".toList]).state.custom_prefix =
        (main FloatText.echo State.fresh
          [post "\"localhost:8080/AAAA\"".toList]).state.custom_prefix :=
  ⟨rfl, rfl, rfl, rfl⟩

/-! ## Long runs: the generator wraps around -/

theorem issued_find_other (n : Nat) (st : State) (u : Str) (h : Issued n st)
    (hu : u.head? ≠ some 'l') : map_find st.shortened_to_original u = none := by
  rw [map_find_none_iff]
  intro hmem
  obtain ⟨j, _, rfl⟩ := h.2.1 u hmem
  exact hu rfl

theorem fresh_post_state (F : FloatText) (n : Nat) (st : State) (r : Request) (u : Str)
    (h : Issued n st) (hm : r.method = .post) (hp : parse F r.body = .ok (.str u))
    (hu : map_find st.shortened_to_original u = none) :
    (main F st [r]).state = (shorten_url st (escape_string u)).2 := by
  rw [main_cons_ok F st _ r [] _ (fresh_post_step F n st r u h hm hp hu)]
  rfl

theorem fresh_posts_of_plain (F : FloatText) (us : List Str) :
    ∀ (n : Nat) (st : State), Issued n st →
      (∀ u ∈ us, (∀ c ∈ u, is_plain c) ∧ u.head? ≠ some 'l') →
      FreshPosts F st (us.map (fun u => post (quoted u))) us := by
  induction us with
  | nil => intro n st _ _; exact trivial
  | cons u us ih =>
    intro n st h hus
    obtain ⟨hplain, hhead⟩ := hus u (List.mem_cons_self _ _)
    have hp : parse F (post (quoted u)).body = .ok (.str u) := parse_quoted_plain F u hplain
    have hu := issued_find_other n st u h hhead
    refine ⟨rfl, hp, hu, ?_⟩
    rw [fresh_post_state F n st _ u h rfl hp hu]
    exact ih (n + 1) _ (issued_shorten n st _ h) (fun x hx => hus x (List.mem_cons_of_mem _ hx))

theorem fresh_posts_keep (F : FloatText) (reqs : List Request) :
    ∀ (urls : List Str) (n : Nat) (st : State), Issued n st → FreshPosts F st reqs urls →
      n + reqs.length ≤ 26 ^ 4 →
      ∀ k v, map_find st.shortened_to_original k = some v →
        map_find (main F st reqs).state.shortened_to_original k = some v := by
  induction reqs with
  | nil => intro urls n st _ _ _ k v hk; exact hk
  | cons r rs ih =>
    intro urls n st h hf hlen k v hk
    cases urls with
    | nil => exact absurd hf (by simp [FreshPosts])
    | cons u us =>
      obtain ⟨hm, hp, hu, hrest⟩ := hf
      have hstep := fresh_post_step F n st r u h hm hp hu
      rw [fresh_post_state F n st r u h hm hp hu] at hrest
      rw [main_cons_ok F st _ r rs _ hstep]
      simp only [List.length_cons] at hlen
      apply ih us (n + 1) _ (issued_shorten n st _ h) hrest (by omega) k v
      have hnew := issued_key_new n st h (by omega)
      have hmem : k ∈ map_keys st.shortened_to_original := by
        by_contra hc
        rw [(map_find_none_iff _ _).2 hc] at hk
        cases hk
      have hne : host_prefix ++ st.custom_prefix ≠ k := fun e => hnew (e ▸ hmem)
      simp only [shorten_url, map_find_assign, hne, if_false, hk]

theorem many_urls_nodup : many_urls.Nodup := by
  unfold many_urls
  refine List.Nodup.map_on ?_ (List.nodup_range _)
  intro i _ j _ hij
  have := congrArg List.length hij
  simpa using this

theorem many_urls_plain : ∀ u ∈ many_urls, (∀ c ∈ u, is_plain c) ∧ u.head? ≠ some 'l' := by
  intro u hu
  unfold many_urls at hu
  obtain ⟨i, _, rfl⟩ := List.mem_map.1 hu
  constructor
  · intro c hc
    rw [List.eq_of_mem_replicate hc]
    exact ⟨by decide, by decide, by decide⟩
  · rw [List.replicate_succ, List.head?_cons]
    intro h
    exact absurd (Option.some.inj h) (by decide)

theorem many_posts_fresh (F : FloatText) : FreshPosts F State.fresh many_posts many_urls := by
  unfold many_posts
  exact fresh_posts_of_plain F many_urls 0 State.fresh issued_fresh many_urls_plain

theorem many_posts_length : many_posts.length = 26 ^ 4 + 1 := by
  unfold many_posts many_urls
  rw [List.length_map, List.length_map, List.length_range]

theorem many_posts_bodies (F : FloatText) :
    (main F State.fresh many_posts).responses.map Response.body =
      (List.range' 0 (26 ^ 4 + 1)).map (fun i => short_url_body (nth_code i)) := by
  have h := (fresh_posts_run F many_posts many_urls 0 State.fresh issued_fresh
    (many_posts_fresh F)).1
  rw [many_posts_length] at h
  exact h

theorem replicate_posts_fresh (F : FloatText) (m n : Nat) (st : State) (h : Issued n st) :
    FreshPosts F st (List.replicate m (post (quoted ['x']))) (List.replicate m ['x']) := by
  have hmap : List.replicate m (post (quoted ['x'])) =
      (List.replicate m ['x']).map (fun u => post (quoted u)) := by
    rw [List.map_replicate]
  rw [hmap]
  apply fresh_posts_of_plain F _ n st h
  intro u hu
  rw [List.eq_of_mem_replicate hu]
  constructor
  · intro c hc
    rw [List.mem_singleton.1 hc]
    exact ⟨by decide, by decide, by decide⟩
  · decide

theorem replicate_posts_run (F : FloatText) (m : Nat) (hm : m + 1 ≤ 26 ^ 4) :
    map_find (main F State.fresh
        (List.replicate (m + 1) (post (quoted ['x'])))).state.shortened_to_original
        "localhost:8080/AAAA".toList = some ['x'] ∧
      Issued (m + 1) (main F State.fresh (List.replicate (m + 1) (post (quoted ['x'])))).state := by
  have hf := replicate_posts_fresh F (m + 1) 0 State.fresh issued_fresh
  have hrun := fresh_posts_run F _ _ 0 State.fresh issued_fresh hf
  refine ⟨?_, ?_⟩
  · rw [List.replicate_succ, List.replicate_succ] at hf
    obtain ⟨hm1, hp1, hu1, hrest⟩ := hf
    have hstep := fresh_post_step F 0 State.fresh _ ['x'] issued_fresh hm1 hp1 hu1
    rw [fresh_post_state F 0 State.fresh _ ['x'] issued_fresh hm1 hp1 hu1] at hrest
    rw [List.replicate_succ, main_cons_ok F State.fresh _ _ _ _ hstep]
    apply fresh_posts_keep F _ _ 1 _ (issued_shorten 0 State.fresh _ issued_fresh) hrest
    · rw [List.length_replicate]; omega
    · rfl
  · have h3 := hrun.2.2
    rw [List.length_replicate, Nat.zero_add] at h3
    exact h3

theorem wrap_posts_run (F : FloatText) :
    map_find (main F State.fresh wrap_posts).state.shortened_to_original
        "localhost:8080/AAAA".toList = some ['x'] ∧
      Issued (26 ^ 4) (main F State.fresh wrap_posts).state := by
  have h := replicate_posts_run F (26 ^ 4 - 1) (by norm_num)
  have e : 26 ^ 4 - 1 + 1 = 26 ^ 4 := by norm_num
  rw [e] at h
  unfold wrap_posts
  exact h

theorem wrap_then_post (F : FloatText) :
    map_find (main F (main F State.fresh wrap_posts).state
        [post (quoted ['y'])]).state.shortened_to_original
        "localhost:8080/AAAA".toList = some ['y'] := by
  obtain ⟨_, hiss⟩ := wrap_posts_run F
  have hp : parse F (post (quoted ['y'])).body = .ok (.str ['y']) := by
    apply parse_quoted_plain
    intro c hc
    rw [List.mem_singleton.1 hc]
    exact ⟨by decide, by decide, by decide⟩
  have hu := issued_find_other _ _ ['y'] hiss (by decide)
  rw [fresh_post_state F _ _ _ ['y'] hiss rfl hp hu]
  have hpre : (main F State.fresh wrap_posts).state.custom_prefix = "AAAA".toList := by
    rw [hiss.1]
    have := nth_code_wrap 0
    rw [Nat.zero_add] at this
    rw [this]
    rfl
  simp only [shorten_url, map_find_assign, hpre]
  rfl

/-! ## Statements about runs of the service -/

/-- C1, as the code has it: from program start, for every `N` and every sequence of `N`
POST requests of pairwise distinct strings, none of which is a key of the map when it is
POSTed, the `i`-th response (`i = 0 .. N-1`) carries the code reached from `AAAA` by `i`
increments, prefixed by `localhost:8080/`; these `N` codes are pairwise distinct when
`N` is at most `26^4 = 456976`. -/
theorem fresh_posts_codes (F : FloatText) (reqs : List Request) (urls : List Str)
    (hd : urls.Nodup) (hf : FreshPosts F State.fresh reqs urls) :
    (main F State.fresh reqs).responses.map Response.body =
        (List.range reqs.length).map (fun i => short_url_body (nth_code i)) ∧
      (reqs.length ≤ 26 ^ 4 → ((List.range reqs.length).map nth_code).Nodup) := by
  refine ⟨?_, nth_codes_nodup reqs.length⟩
  rw [List.range_eq_range']
  exact (fresh_posts_run F reqs urls 0 State.fresh issued_fresh hf).1

theorem fresh_posts_codes_witness :
    ["http://example.com".toList, "http://other.com".toList].Nodup ∧
      FreshPosts FloatText.echo State.fresh
        [post "\"http://example.com\"".toList, post "\"http://other.com\"".toList]
        ["http://example.com".toList, "http://other.com".toList] ∧
      (main FloatText.echo State.fresh
          [post "\"http://example.com\"".toList,
            post "\"http://other.com\"".toList]).responses.map Response.body =
        (List.range [post "\"http://example.com\"".toList,
            post "\"http://other.com\"".toList].length).map
          (fun i => short_url_body (nth_code i)) ∧
      ([post "\"http://example.com\"".toList, post "\"http://other.com\"".toList].length
          ≤ 26 ^ 4 →
        ((List.range [post "\"http://example.com\"".toList,
            post "\"http://other.com\"".toList].length).map nth_code).Nodup) :=
  have hd : ["http://example.com".toList, "http://other.com".toList].Nodup := by decide
  have hf : FreshPosts FloatText.echo State.fresh
      [post "\"http://example.com\"".toList, post "\"http://other.com\"".toList]
      ["http://example.com".toList, "http://other.com".toList] :=
    ⟨rfl, rfl, rfl, rfl, rfl, rfl, trivial⟩
  ⟨hd, hf, fresh_posts_codes FloatText.echo _ _ hd hf⟩

/-- C1 as stated fails: the `26^4 + 1` strings `x`, `xx`, `xxx`, ... are pairwise distinct
and none is a key of the map when it is POSTed, yet the first and the last response carry
the same code, `AAAA`. -/
theorem codes_repeat_after_wrap :
    many_urls.Nodup ∧ FreshPosts FloatText.echo State.fresh many_posts many_urls ∧
      ((main FloatText.echo State.fresh many_posts).responses.map Response.body)[0]? =
        some (short_url_body "AAAA".toList) ∧
      ((main FloatText.echo State.fresh many_posts).responses.map Response.body)[26 ^ 4]? =
        some (short_url_body "AAAA".toList) := by
  refine ⟨many_urls_nodup, many_posts_fresh _, ?_, ?_⟩
  · rw [many_posts_bodies, List.getElem?_map, List.getElem?_range' _ _ (by norm_num)]
    rfl
  · rw [many_posts_bodies, List.getElem?_map, List.getElem?_range' _ _ (by norm_num)]
    have := nth_code_wrap 0
    rw [Nat.zero_add] at this
    simp only [Nat.zero_add, Nat.one_mul, Option.map_some', this]
    rfl

theorem main_single_state (F : FloatText) (st : State) (req : Request) :
    (main F st [req]).state = st ∨
      ∃ x, (main F st [req]).state = (lookup_or_shorten st x).2 := by
  rcases handle_request_state F st req with ⟨e, he⟩ | ⟨res, h1⟩ | ⟨res, x, h1⟩
  · left
    rw [main_cons_error F st req [] e he]
  · left
    rw [main_cons_ok F st st req [] res h1]
    rfl
  · right
    refine ⟨x, ?_⟩
    rw [main_cons_ok F st _ req [] res h1]
    rfl

theorem lookup_or_shorten_keeps (n : Nat) (st : State) (x k v : Str) (h : Issued n st)
    (hk : map_find st.shortened_to_original k = some v) :
    (∃ v1, map_find (lookup_or_shorten st x).2.shortened_to_original k = some v1) ∧
      (st.shortened_to_original.length < 26 ^ 4 →
        map_find (lookup_or_shorten st x).2.shortened_to_original k = some v) := by
  cases hf : map_find st.shortened_to_original x with
  | some w =>
    rw [lookup_or_shorten_found st x w hf]
    exact ⟨⟨v, hk⟩, fun _ => hk⟩
  | none =>
    rw [lookup_or_shorten_new st x hf]
    simp only [shorten_url, map_find_assign]
    constructor
    · by_cases e : host_prefix ++ st.custom_prefix = k
      · exact ⟨x, by simp [e]⟩
      · exact ⟨v, by simp [e, hk]⟩
    · intro hlen
      have hn : n < 26 ^ 4 := by
        have := h.2.2
        omega
      have hnew := issued_key_new n st h hn
      have hmem : k ∈ map_keys st.shortened_to_original := by
        by_contra hc
        rw [(map_find_none_iff _ _).2 hc] at hk
        cases hk
      have hne : host_prefix ++ st.custom_prefix ≠ k := fun e => hnew (e ▸ hmem)
      simp [hne, hk]

/-- C6, as the code has it: no entry of the map is ever removed, and none is overwritten
while the map holds fewer than `26^4 = 456976` entries: for every reachable state and every
further request (GET, POST or other), every key present before the request is present
after it, and it maps to the same original URL when the map held fewer than `26^4` entries
before the request. -/
theorem entries_kept (F : FloatText) (st : State) (req : Request) (k v : Str)
    (hr : Reachable F st) (hk : map_find st.shortened_to_original k = some v) :
    (∃ v1, map_find (main F st [req]).state.shortened_to_original k = some v1) ∧
      (st.shortened_to_original.length < 26 ^ 4 →
        map_find (main F st [req]).state.shortened_to_original k = some v) := by
  obtain ⟨n, hn⟩ := reachable_issued F st hr
  rcases main_single_state F st req with h | ⟨x, h⟩
  · rw [h]
    exact ⟨⟨v, hk⟩, fun _ => hk⟩
  · rw [h]
    exact lookup_or_shorten_keeps n st x k v hn hk

theorem entries_kept_witness :
    Reachable FloatText.echo (main FloatText.echo State.fresh [post "\"u\"".toList]).state ∧
      map_find (main FloatText.echo State.fresh [post "\"u\"".toList]).state.shortened_to_original
        "localhost:8080/AAAA".toList = some "u".toList ∧
      (∃ v1, map_find (main FloatText.echo
          (main FloatText.echo State.fresh [post "\"u\"".toList]).state
          [post "\"w\"".toList]).state.shortened_to_original
          "localhost:8080/AAAA".toList = some v1) ∧
      ((main FloatText.echo State.fresh
          [post "\"u\"".toList]).state.shortened_to_original.length < 26 ^ 4 →
        map_find (main FloatText.echo
          (main FloatText.echo State.fresh [post "\"u\"".toList]).state
          [post "\"w\"".toList]).state.shortened_to_original
          "localhost:8080/AAAA".toList = some "u".toList) :=
  ⟨⟨_, rfl⟩, rfl,
    entries_kept FloatText.echo _ (post "\"w\"".toList) "localhost:8080/AAAA".toList
      "u".toList ⟨_, rfl⟩ rfl⟩

/-- C6 as stated fails: after `26^4` POST requests of the string `x` from program start the
map holds the entry `localhost:8080/AAAA -> x`; the POST of the string `y` that follows
gets the code `AAAA` again and overwrites that entry with `localhost:8080/AAAA -> y`. -/
theorem entry_overwritten_after_wrap :
    Reachable FloatText.echo (main FloatText.echo State.fresh wrap_posts).state ∧
      map_find (main FloatText.echo State.fresh wrap_posts).state.shortened_to_original
        "localhost:8080/AAAA".toList = some "x".toList ∧
      map_find (main FloatText.echo (main FloatText.echo State.fresh wrap_posts).state
          [post "\"y\"".toList]).state.shortened_to_original
        "localhost:8080/AAAA".toList = some "y".toList :=
  ⟨⟨wrap_posts, rfl⟩, (wrap_posts_run FloatText.echo).1, wrap_then_post FloatText.echo⟩

end UrlShortener
